import Mathlib

/-!
Verification development for the helmdebug repository (a commented fork of the
Helm 2 tiller release server plus repository-file handling).

The Go source is shallowly embedded: pure decision logic is translated to Lean
functions, external collaborators (YAML parsing, the release storage backend,
the cluster client, the random name generator, the template renderer) become
explicit function parameters, and Go's mutation of request/result structures
becomes explicit state passing.  Go errors are modelled with Except / Option;
a Go runtime panic (nil-pointer dereference) is modelled by a dedicated
GoResult.panicked outcome.
-/

set_option maxHeartbeats 1000000

namespace HelmSpec

/-! ## Values reuse policy (pkg/tiller/release_server.go, reuseValues) -/

/-- chart.Config: an opaque serialized configuration blob (its Raw field). -/
structure Config where
  raw : String
deriving DecidableEq

/-- The slice of services.UpdateReleaseRequest read and written by reuseValues:
the ResetValues and ReuseValues flags, the request configuration req.Values,
and the chart default values carried by the request, req.Chart.Values. -/
structure UpdateRequest where
  resetValues : Bool
  reuseValues : Bool
  values : Option Config
  chartValues : Option Config
deriving DecidableEq

/-- The slice of release.Release read by reuseValues: the stored configuration
current.Config.  current.Chart is only ever passed to the external
chartutil.CoalesceValues, which is abstracted as the coalesce parameter. -/
structure Release where
  config : Option Config
deriving DecidableEq

/-- The emptiness test used by reuseValues on an optional config blob:
nil, zero-length raw, or exactly the canonical empty-object serialization.
The Go condition on req.Values is this predicate; the Go condition on
current.Config is its negation. -/
def isBlankOpt : Option Config → Bool
  | none => true
  | some c => c.raw == "" || c.raw == "{}\n"

/-- reuseValues from release_server.go.  coalesce abstracts
chartutil.CoalesceValues(current.Chart, current.Config) (applied here to
current.config, the chart being fixed inside the parameter) and toYAML
abstracts Values.YAML().  On the reuse branch the code assigns
req.Chart.Values = chart.Config{Raw: nv}; on the carry-forward branch it
assigns req.Values = current.Config. -/
def reuseValues {α : Type} (coalesce : Option Config → Except String α)
    (toYAML : α → Except String String)
    (req : UpdateRequest) (current : Release) : Except String UpdateRequest :=
  if req.resetValues then .ok req
  else if req.reuseValues then
    match coalesce current.config with
    | .error e => .error ("failed to rebuild old values: " ++ e)
    | .ok oldVals =>
      match toYAML oldVals with
      | .error e => .error e
      | .ok nv => .ok { req with chartValues := some ⟨nv⟩ }
  else
    if isBlankOpt req.values && !isBlankOpt current.config then
      .ok { req with values := current.config }
    else
      .ok req

/-! ## Manifest classification (pkg/tiller/release_server.go, part two:
events table, manifestFile.sort, sortManifests and helpers) -/

/-- release.Hook_Event: the ten recognized lifecycle event codes. -/
inductive HookEvent where
  | preInstall
  | postInstall
  | preDelete
  | postDelete
  | preUpgrade
  | postUpgrade
  | preRollback
  | postRollback
  | releaseTestSuccess
  | releaseTestFailure
deriving DecidableEq

/-- Modelled from the spec: the ten recognized lifecycle event names (spec
section 6); the events map literal is in release_server.go but the string
constants it keys on live in the hooks package, which is not under src/. -/
def eventsList : List (String × HookEvent) :=
  [("pre-install", .preInstall),
   ("post-install", .postInstall),
   ("pre-delete", .preDelete),
   ("post-delete", .postDelete),
   ("pre-upgrade", .preUpgrade),
   ("post-upgrade", .postUpgrade),
   ("pre-rollback", .preRollback),
   ("post-rollback", .postRollback),
   ("release-test-success", .releaseTestSuccess),
   ("release-test-failure", .releaseTestFailure)]

/-- The events map lookup of release_server.go. -/
def events (s : String) : Option HookEvent :=
  (eventsList.find? (fun p => p.1 == s)).map (fun p => p.2)

/-- Modelled from the spec: the lifecycle-hook annotation key (hooks.HookAnno;
the hooks package is not under src/, the spec calls it the single "hook"
annotation key). -/
def hookAnno : String := "helm.sh/hook"

/-- Modelled from the spec: the hook-weight annotation key
(hooks.HookWeightAnno, not under src/). -/
def hookWeightAnno : String := "helm.sh/hook-weight"

/-- util.SimpleHead metadata: name plus the (possibly nil) annotations map,
modelled as an association list with distinct keys looked up first-match. -/
structure SHMetadata where
  name : String
  annotations : Option (List (String × String))
deriving DecidableEq

/-- util.SimpleHead: the generic parsed YAML header of one resource document
(kind / apiVersion / metadata). -/
structure SimpleHead where
  kind : String
  version : String
  metadata : Option SHMetadata
deriving DecidableEq

/-- The manifest struct of release_server.go: file path, raw content and
parsed header of one classified generic resource. -/
structure Manifest where
  name : String
  content : String
  head : SimpleHead
deriving DecidableEq

/-- release.Hook as built by manifestFile.sort: name, kind, source path, raw
manifest, bound events, weight.  (LastRun is modelled in the hook executor as
an explicit stamped-manifest trace.) -/
structure Hook where
  name : String
  kind : String
  path : String
  manifest : String
  events : List HookEvent
  weight : Int
deriving DecidableEq

/-- The result struct of release_server.go: hooks and generic manifests
accumulated by classification. -/
structure ResultAcc where
  hooks : List Hook
  generic : List Manifest
deriving DecidableEq

/-- Whitespace test used by the TrimSpace model (ASCII whitespace; the hook
annotation values in play are ASCII). -/
def isSpaceChar (c : Char) : Bool :=
  c == ' ' || c == '\t' || c == '\n' || c == '\r'

/-- strings.TrimSpace on ASCII input: drop whitespace from both ends. -/
def goTrim (s : String) : String :=
  ((s.toList.dropWhile isSpaceChar).reverse.dropWhile isSpaceChar).reverse.asString

/-- ASCII lower-casing of one character. -/
def lowerChar (c : Char) : Char :=
  if 65 ≤ c.toNat && c.toNat ≤ 90 then Char.ofNat (c.toNat + 32) else c

/-- strings.ToLower on ASCII input. -/
def goToLower (s : String) : String := (s.toList.map lowerChar).asString

/-- Splitting a character list at a separator character, accumulating the
current (reversed) piece. -/
def splitCharAux (sep : Char) : List Char → List Char → List String
  | [], acc => [acc.reverse.asString]
  | c :: cs, acc =>
    if c == sep then acc.reverse.asString :: splitCharAux sep cs []
    else splitCharAux sep cs (c :: acc)

/-- strings.Split with a one-character separator (the two uses in the source
split on "," and "/"). -/
def goSplit (sep : Char) (s : String) : List String := splitCharAux sep s.toList []

/-- Go map lookup on an annotations association list (first matching key). -/
def assocFind (l : List (String × String)) (k : String) : Option String :=
  (l.find? (fun p => p.1 == k)).map (fun p => p.2)

/-- entry.Metadata.Annotations[k] guarded by the nil checks the code performs
before dereferencing. -/
def annoLookup (e : SimpleHead) (k : String) : Option String :=
  match e.metadata with
  | none => none
  | some md =>
    match md.annotations with
    | none => none
    | some l => assocFind l k

/-- hasAnyAnnotation from release_server.go: metadata present, annotations
present and non-empty. -/
def hasAnyAnno (e : SimpleHead) : Bool :=
  match e.metadata with
  | none => false
  | some md =>
    match md.annotations with
    | none => false
    | some l => !l.isEmpty

/-- entry.Metadata.Name as read when building a hook (metadata is non-nil on
that code path; the default is never used there). -/
def mdName (e : SimpleHead) : String :=
  match e.metadata with
  | none => ""
  | some md => md.name

/-- Decimal digit accumulation for the strconv.Atoi model. -/
def parseDigitsAux : List Char → Nat → Option Nat
  | [], acc => some acc
  | c :: cs, acc =>
    if c.isDigit then parseDigitsAux cs (acc * 10 + (c.toNat - 48)) else none

/-- strconv.Atoi: optional sign, at least one digit, all digits, value within
the 64-bit int range; anything else is an error (none). -/
def goAtoi (s : String) : Option Int :=
  match s.toList with
  | [] => none
  | '+' :: cs =>
    match cs with
    | [] => none
    | _ => (parseDigitsAux cs 0).bind
        (fun n => if n ≤ 9223372036854775807 then some (Int.ofNat n) else none)
  | '-' :: cs =>
    match cs with
    | [] => none
    | _ => (parseDigitsAux cs 0).bind
        (fun n => if n ≤ 9223372036854775808 then some (-(Int.ofNat n)) else none)
  | cs => (parseDigitsAux cs 0).bind
      (fun n => if n ≤ 9223372036854775807 then some (Int.ofNat n) else none)

/-- Go's int32(n) conversion on a 64-bit int: two's-complement truncation. -/
def wrap32 (n : Int) : Int := (n + 2147483648) % 4294967296 - 2147483648

/-- calculateHookWeight from release_server.go: read the hook-weight
annotation (missing key yields the empty string), Atoi it with 0 on error,
convert to int32. -/
def calculateHookWeight (e : SimpleHead) : Int :=
  wrap32 ((goAtoi ((annoLookup e hookWeightAnno).getD "")).getD 0)

/-- The recognized events extracted from a hook annotation value: split on
commas, trim and lower-case each piece (strings.ToLower(strings.TrimSpace)),
keep the pieces found in the events map, in order. -/
def recognizedEvents (hookTypes : String) : List HookEvent :=
  (goSplit ',' hookTypes).filterMap (fun s => events (goToLower (goTrim s)))

/-- The error text fmt.Errorf("YAML parse error on %s: %s", path, err). -/
def yamlParseErrMsg (p m : String) : String :=
  "YAML parse error on " ++ p ++ ": " ++ m

/-- The error text fmt.Errorf("apiVersion %q in %s is not available", v, p). -/
def apiVersionErrMsg (v p : String) : String :=
  "apiVersion \"" ++ v ++ "\" in " ++ p ++ " is not available"

/-- The body of the entry loop in manifestFile.sort, for one document d of
file p: parse the header (parse abstracts yaml.Unmarshal into SimpleHead),
gate the apiVersion against the capability set, then classify the document as
generic, as a hook, or drop it.  Returns the updated accumulator, plus the
error that aborts the whole classification if one arises. -/
def docStep (parse : String → Except String SimpleHead) (apis : List String)
    (p d : String) (acc : ResultAcc) : ResultAcc × Option String :=
  match parse d with
  | .error e => (acc, some (yamlParseErrMsg p e))
  | .ok entry =>
    if entry.version != "" && !apis.contains entry.version then
      (acc, some (apiVersionErrMsg entry.version p))
    else if !hasAnyAnno entry then
      ({ acc with generic := acc.generic ++ [⟨p, d, entry⟩] }, none)
    else
      match annoLookup entry hookAnno with
      | none => ({ acc with generic := acc.generic ++ [⟨p, d, entry⟩] }, none)
      | some hookTypes =>
        let evs := recognizedEvents hookTypes
        if evs.isEmpty then (acc, none)
        else
          ({ acc with hooks := acc.hooks ++
              [⟨mdName entry, entry.kind, p, d, evs, calculateHookWeight entry⟩] }, none)

/-- A loop over items that threads an accumulator and stops at the first item
reporting an error, exactly like the Go for-loops in manifestFile.sort and
sortManifests that return on the first non-nil error. -/
def stopFold {β α : Type} (step : β → α → α × Option String) :
    List β → α → α × Option String
  | [], acc => (acc, none)
  | b :: bs, acc =>
    match step b acc with
    | (acc1, none) => stopFold step bs acc1
    | (acc1, some e) => (acc1, some e)

/-- Go's path.Base: strip trailing slashes and keep the last path element;
"" gives "." and an all-slash path gives "/". -/
def pathBase (p : String) : String :=
  if p = "" then "."
  else
    let q := (p.toList.reverse.dropWhile (fun c => c == '/')).reverse
    if q.isEmpty then "/" else (splitCharAux '/' q []).getLastD q.asString

/-- Boolean prefix test on character lists (strings.HasPrefix). -/
def isPrefixOfB : List Char → List Char → Bool
  | [], _ => true
  | _ :: _, [] => false
  | a :: as, b :: bs => a == b && isPrefixOfB as bs

/-- The two skip tests at the top of the sortManifests file loop: a base name
starting with the partial marker, or whitespace-only content. -/
def skipFile (p c : String) : Bool :=
  isPrefixOfB "_".toList (pathBase p).toList || goTrim c == ""

/-- Processing of one rendered file by sortManifests: skip partials and blank
files, otherwise split the content into documents (split abstracts
util.SplitManifests) and run the entry loop of manifestFile.sort. -/
def fileStep (split : String → List String)
    (parse : String → Except String SimpleHead) (apis : List String)
    (f : String × String) (acc : ResultAcc) : ResultAcc × Option String :=
  if skipFile f.1 f.2 then (acc, none)
  else stopFold (docStep parse apis f.1) (split f.2) acc

/-- Modelled from the spec: the InstallOrder kind-precedence table (spec
section 6); kind_sorter.go is not under src/. -/
def installOrder : List String :=
  ["Namespace", "NetworkPolicy", "ResourceQuota", "LimitRange",
   "PodSecurityPolicy", "PodDisruptionBudget", "ServiceAccount", "Secret",
   "ConfigMap", "StorageClass", "PersistentVolume", "PersistentVolumeClaim",
   "ClusterRole", "ClusterRoleBinding", "Role", "RoleBinding", "Service",
   "DaemonSet", "Pod", "ReplicationController", "ReplicaSet", "Deployment",
   "StatefulSet", "Job", "CronJob", "Ingress", "APIService"]

/-- Position of a kind in a precedence table; unknown kinds sort last. -/
def kindIdx (order : List String) (k : String) : Nat :=
  match order.findIdx? (fun x => x == k) with
  | some i => i
  | none => order.length

/-- Stable insertion of a manifest by kind precedence. -/
def insertManifest (order : List String) (m : Manifest) :
    List Manifest → List Manifest
  | [] => [m]
  | x :: xs =>
    if kindIdx order m.head.kind ≤ kindIdx order x.head.kind then m :: x :: xs
    else x :: insertManifest order m xs

/-- Modelled from the spec: sortByKind, a stable sort of generic manifests by
the kind-precedence table, unknown kinds last (spec sections 4.2 and 6;
kind_sorter.go is not under src/). -/
def sortByKind (order : List String) (l : List Manifest) : List Manifest :=
  l.foldr (insertManifest order) []

/-- sortManifests from release_server.go: run the file loop over the rendered
file set; on success sort the generic manifests by kind, on the first error
return the partial accumulator together with the error. -/
def sortManifests (split : String → List String)
    (parse : String → Except String SimpleHead) (apis : List String)
    (files : List (String × String)) : ResultAcc × Option String :=
  match stopFold (fileStep split parse apis) files ⟨[], []⟩ with
  | (acc, none) => ({ acc with generic := sortByKind installOrder acc.generic }, none)
  | (acc, some e) => (acc, some e)

/-! ## Name allocation (pkg/tiller/release_server.go, uniqName) -/

/-- releaseNameMaxLen from release_server.go. -/
def releaseNameMaxLen : Nat := 53

/-- release.Status_Code values. -/
inductive Status where
  | statusUnknown
  | deployed
  | deleted
  | failed
  | superseded
  | pendingInstall
  | pendingUpgrade
  | pendingRollback
deriving DecidableEq

/-- One release revision as far as uniqName inspects it: revision number and
status code. -/
structure ReleaseRec where
  version : Int
  status : Status
deriving DecidableEq

/-- Modelled from the spec: relutil.Reverse(h, relutil.SortByRevision)
followed by taking h[0] (releaseutil is not under src/): the element of the
history with the greatest revision number, the spec's "most recent revision by
revision number (descending)".  Ties keep the later list element, matching an
ascending sort followed by a reversal. -/
def latestRevision : List ReleaseRec → Option ReleaseRec
  | [] => none
  | r :: rs => some (rs.foldl (fun best x => if best.version ≤ x.version then x else best) r)

/-- Truncation of a generated name to releaseNameMaxLen (Go name[:53]). -/
def truncName (s : String) : String :=
  if s.length > releaseNameMaxLen then (s.toList.take releaseNameMaxLen).asString else s

/-- Boolean infix test: sub occurs somewhere in s. -/
def containsSub (sub : List Char) : List Char → Bool
  | [] => isPrefixOfB sub []
  | c :: t => isPrefixOfB sub (c :: t) || containsSub sub t

/-- strings.Contains(s, sub). -/
def goContains (s sub : String) : Bool := containsSub sub.toList s.toList

/-- Outcome of a Go function that can also crash: a value, an error, or a
runtime panic. -/
inductive GoResult (α : Type) where
  | ok (a : α)
  | err (msg : String)
  | panicked
deriving DecidableEq

/-- The fmt.Errorf("release name %q exceeds max length of %d", start, 53)
message. -/
def lenErrMsg (start : String) : String :=
  "release name \"" ++ start ++ "\" exceeds max length of 53"

/-- The conflict message returned when an explicit name already has history
and reuse is not set. -/
def conflictMsg (start : String) : String :=
  "a release named " ++ start ++ " already exists.\nRun: helm ls --all " ++ start ++
  "; to check the status of the release\nOr run: helm del --purge " ++ start ++
  "; to delete it"

/-- The random-name retry loop of uniqName.  gen abstracts moniker's NameSep
(one generated name per attempt index i), get abstracts
s.env.Releases.Get(name, 1), returning none for a nil error (the release
exists) and some msg for an error with text msg.  The Go code evaluates
strings.Contains(err.Error(), "not found"); when err is nil this dereferences
a nil interface and panics, which is the panicked outcome. -/
def uniqLoop (get : String → Option String) (gen : Nat → String) :
    Nat → Nat → GoResult String
  | _, 0 => .err "no available release name found"
  | i, n + 1 =>
    let name := truncName (gen i)
    match get name with
    | none => .panicked
    | some e =>
      if goContains e "not found" then .ok name
      else uniqLoop get gen (i + 1) n

/-- uniqName from release_server.go.  history is the result of
s.env.Releases.History(start); an explicit name is granted when the lookup
errors or finds no revisions, otherwise the latest revision's status and the
reuse flag decide.  An empty start runs the five-attempt generation loop. -/
def uniqName (history : Except String (List ReleaseRec))
    (get : String → Option String) (gen : Nat → String)
    (start : String) (reuse : Bool) : GoResult String :=
  if start = "" then uniqLoop get gen 0 5
  else if start.length > releaseNameMaxLen then .err (lenErrMsg start)
  else
    match history with
    | .error _ => .ok start
    | .ok h =>
      if h.length < 1 then .ok start
      else
        match latestRevision h with
        | none => .ok start
        | some rel =>
          if reuse && (rel.status == .deleted || rel.status == .failed) then .ok start
          else if reuse then .err "cannot re-use a name that is still in use"
          else .err (conflictMsg start)

/-! ## Hook execution (pkg/tiller/release_server.go, execHook) -/

/-- Modelled from the spec: sortByHookWeight orders hooks by weight ascending
then name ascending, stably (spec section 4.2; kind_sorter.go is not under
src/). -/
def hookLeB (a b : Hook) : Bool :=
  decide (a.weight < b.weight) ||
    (a.weight == b.weight && decide (a.name < b.name))

/-- Stable insertion for the hook-weight sort. -/
def insertHook (h : Hook) : List Hook → List Hook
  | [] => [h]
  | x :: xs => if hookLeB x h then x :: insertHook h xs else h :: x :: xs

/-- Modelled from the spec: the weight-then-name hook sort of section 4.2. -/
def sortByHookWeight (l : List Hook) : List Hook := l.foldr insertHook []

/-- The sequential execution loop of execHook over the filtered, sorted hook
list.  create abstracts kubeCli.Create and watchReady abstracts
kubeCli.WatchUntilReady, each returning some error text on failure.  The
returned triple is the trace of submitted manifests (Create was invoked), the
trace of manifests whose hook reached readiness and had LastRun stamped, and
the error that aborted the loop, if any. -/
def runHooks (create watchReady : String → Option String) :
    List Hook → List String × List String × Option String
  | [] => ([], [], none)
  | h :: rest =>
    match create h.manifest with
    | some e => ([h.manifest], [], some e)
    | none =>
      match watchReady h.manifest with
      | some e => ([h.manifest], [], some e)
      | none =>
        match runHooks create watchReady rest with
        | (sub, st, er) => (h.manifest :: sub, h.manifest :: st, er)

/-- execHook from release_server.go: resolve the event name in the events
map (unknown names fail immediately), filter the hooks bound to that event,
sort them by weight then name, and run them sequentially.  name, ns and
timeout are carried for shape; the cluster interaction is abstracted by
create and watchReady. -/
def execHook (create watchReady : String → Option String) (hs : List Hook)
    (name ns hook : String) (timeout : Int) :
    List String × List String × Option String :=
  match events hook with
  | none => ([], [], some ("unknown hook " ++ hook))
  | some code =>
    runHooks create watchReady
      (sortByHookWeight (hs.filter (fun h => h.events.contains code)))

/-! ## Repositories file (src/unnamed/part_000, package repo) -/

/-- repo.Entry from chartrepo.go. -/
structure RepoEntry where
  name : String
  cache : String
  url : String
  certFile : String
  keyFile : String
  caFile : String
deriving DecidableEq

/-- RepoFile from part_000: apiVersion, generation time (abstracted to a Nat),
and the repository entries. -/
structure RepoFile where
  apiVersion : String
  generated : Nat
  repositories : List RepoEntry
deriving DecidableEq

/-- APIVersionV1, the current repositories-file format version. -/
def APIVersionV1 : String := "v1"

/-- NewRepoFile: empty repositories file with APIVersion and Generated set
(time.Now() abstracted as the now parameter). -/
def newRepoFile (now : Nat) : RepoFile :=
  { apiVersion := APIVersionV1, generated := now, repositories := [] }

/-- RepoFile.Add for a single entry: append. -/
def RepoFile.add (r : RepoFile) (e : RepoEntry) : RepoFile :=
  { r with repositories := r.repositories ++ [e] }

/-- The entry built for one legacy name/URL pair during migration:
Entry{Name: k, URL: v, Cache: k + "-index.yaml"}. -/
def legacyEntry (kv : String × String) : RepoEntry :=
  { name := kv.1, cache := kv.1 ++ "-index.yaml", url := kv.2,
    certFile := "", keyFile := "", caFile := "" }

/-- The three-way outcome of LoadRepositoriesFile: a parsed file, the
distinguished recoverable ErrRepoOutOfDate paired with the migrated file, or
a plain failure. -/
inductive LoadResult where
  | ok (r : RepoFile)
  | outOfDate (migrated : RepoFile)
  | fail (msg : String)
deriving DecidableEq

/-- LoadRepositoriesFile from part_000.  readResult abstracts
ioutil.ReadFile, parseRepo abstracts yaml.Unmarshal into a RepoFile, and
parseMap abstracts yaml.Unmarshal of the same bytes into the legacy
map[string]string (modelled as a key/value list).  An empty APIVersion takes
the legacy branch: a fresh file is built and one entry is added per legacy
pair, returned together with ErrRepoOutOfDate. -/
def loadRepositoriesFile (parseRepo : String → Except String RepoFile)
    (parseMap : String → Except String (List (String × String)))
    (now : Nat) (readResult : Except String String) : LoadResult :=
  match readResult with
  | .error e => .fail e
  | .ok b =>
    match parseRepo b with
    | .error e => .fail e
    | .ok r =>
      if r.apiVersion = "" then
        match parseMap b with
        | .error e => .fail e
        | .ok m =>
          .outOfDate (m.foldl (fun acc kv => acc.add (legacyEntry kv)) (newRepoFile now))
      else .ok r

/-- The single-target body of RepoFile.Update: replace the first entry with
the same name, or append the target when no entry matches. -/
def updateEntry : List RepoEntry → RepoEntry → List RepoEntry
  | [], t => [t]
  | r :: rs, t => if r.name = t.name then t :: rs else r :: updateEntry rs t

/-- RepoFile.Update restricted to one entry (the Go method loops this body
over its variadic arguments). -/
def RepoFile.update (r : RepoFile) (e : RepoEntry) : RepoFile :=
  { r with repositories := updateEntry r.repositories e }

/-- RepoFile.Has from part_000. -/
def RepoFile.has (r : RepoFile) (n : String) : Bool :=
  r.repositories.any (fun x => x.name == n)

/-! ## Concrete inputs used by counterexamples and witnesses -/

/-- C1 counterexample input: an upgrade request with ReuseValues set whose
configuration req.Values is the non-blank blob "a: 1\n". -/
def c1req : UpdateRequest :=
  { resetValues := false, reuseValues := true,
    values := some ⟨"a: 1\n"⟩, chartValues := none }

/-- C1 counterexample input: a prior release with stored configuration. -/
def c1cur : Release := { config := some ⟨"c: 3\n"⟩ }

/-- C1 counterexample input: a coalesce stand-in whose recomputed value is the
blob "coalesced: yes\n". -/
def c1coalesce : Option Config → Except String String :=
  fun _ => .ok "coalesced: yes\n"

/-- C3 counterexample input: a parsed header whose hook annotation names only
the unrecognized event "bogus-event". -/
def c3head : SimpleHead :=
  { kind := "Pod", version := "",
    metadata := some { name := "p", annotations := some [(hookAnno, "bogus-event")] } }

/-- C3 counterexample input: a parser that returns c3head for every document. -/
def c3parse : String → Except String SimpleHead := fun _ => .ok c3head

/-- C3 counterexample input: a one-document-per-file splitter. -/
def oneDocSplit : String → List String := fun s => [s]

/-- C3 counterexample input: the rendered file set, one non-partial non-blank
file holding one document. -/
def c3files : List (String × String) := [("templates/a.yaml", "k: v")]

/-! ## Theorems -/

/-- C1 counterexample: with ReuseValues set, a request whose configuration
req.Values is "a: 1\n" and a coalesce recomputation yielding
"coalesced: yes\n".  reuseValues succeeds but writes the recomputed value
into req.Chart.Values, leaving the request's configuration req.Values equal
to "a: 1\n", which differs from the recomputed value — so the claim that the
new request's configuration is overwritten with the recomputed value is
false on the code. -/
theorem c1_counterexample :
    reuseValues c1coalesce Except.ok c1req c1cur
        = .ok { c1req with chartValues := some ⟨"coalesced: yes\n"⟩ }
      ∧ ({ c1req with chartValues := some ⟨"coalesced: yes\n"⟩ } : UpdateRequest).values
          = some ⟨"a: 1\n"⟩
      ∧ some (Config.mk "a: 1\n") ≠ some (Config.mk "coalesced: yes\n") :=
  ⟨rfl, rfl, by decide⟩

/-- C1 (amended): with the reuse flag set and reset not set, reuseValues
recomputes the prior release's coalesced configuration and overwrites the
request's chart default values req.Chart.Values with its serialization,
leaving the request's configuration req.Values unchanged; if the coalescing
fails the operation fails with the "failed to rebuild old values" error, if
the serialization fails the operation fails with that error, and in both
failure cases nothing is overwritten. -/
theorem c1_reuse_overwrites_chart_values {α : Type}
    (coalesce : Option Config → Except String α) (toYAML : α → Except String String)
    (req : UpdateRequest) (current : Release)
    (hreset : req.resetValues = false) (hreuse : req.reuseValues = true) :
    (∀ v nv, coalesce current.config = .ok v → toYAML v = .ok nv →
        reuseValues coalesce toYAML req current = .ok { req with chartValues := some ⟨nv⟩ })
  ∧ (∀ e, coalesce current.config = .error e →
        reuseValues coalesce toYAML req current
          = .error ("failed to rebuild old values: " ++ e))
  ∧ (∀ v e, coalesce current.config = .ok v → toYAML v = .error e →
        reuseValues coalesce toYAML req current = .error e) := by
  refine ⟨fun v nv hv hnv => ?_, fun e he => ?_, fun v e hv he => ?_⟩ <;>
    simp [reuseValues, hreset, hreuse, *]

/-- C1 witness: the amended theorem applied at a concrete request and a
concrete coalesce result. -/
theorem c1_witness :
    reuseValues (fun _ => (Except.ok "x: 2\n" : Except String String)) Except.ok
      { resetValues := false, reuseValues := true, values := none, chartValues := none }
      { config := none }
      = .ok { resetValues := false, reuseValues := true, values := none,
              chartValues := some ⟨"x: 2\n"⟩ } :=
  (c1_reuse_overwrites_chart_values _ _ _ _ rfl rfl).1 "x: 2\n" "x: 2\n" rfl rfl

/-- C7: with neither flag set, reuseValues copies the prior stored
configuration verbatim into the request exactly when the request
configuration is blank (unset, zero-length or the canonical empty-object
serialization) and the prior stored configuration is non-blank; in every
other no-flag case the request is returned unchanged. -/
theorem c7_carry_forward {α : Type} (coalesce : Option Config → Except String α)
    (toYAML : α → Except String String) (req : UpdateRequest) (current : Release)
    (hreset : req.resetValues = false) (hreuse : req.reuseValues = false) :
    (isBlankOpt req.values = true → isBlankOpt current.config = false →
        reuseValues coalesce toYAML req current = .ok { req with values := current.config })
  ∧ (isBlankOpt req.values = false ∨ isBlankOpt current.config = true →
        reuseValues coalesce toYAML req current = .ok req) := by
  constructor
  · intro h1 h2
    simp [reuseValues, hreset, hreuse, h1, h2]
  · rintro (h | h) <;> simp [reuseValues, hreset, hreuse, h]

/-- C7 witness: the carry-forward branch at a concrete blank request and a
concrete non-blank prior configuration. -/
theorem c7_witness :
    reuseValues (fun _ => (Except.ok "" : Except String String)) Except.ok
      { resetValues := false, reuseValues := false, values := none, chartValues := none }
      { config := some ⟨"name: x\n"⟩ }
      = .ok { resetValues := false, reuseValues := false,
              values := some ⟨"name: x\n"⟩, chartValues := none } :=
  (c7_carry_forward _ _ _ _ rfl rfl).1 rfl rfl

/-- C2: a document whose parsed header has annotations carrying the hook key,
but whose hook annotation value contains zero recognized event names, is
dropped by the classification step: the accumulator is returned unchanged
(the document joins neither the hooks list nor the generic list) and no error
is reported for it. -/
theorem c2_zero_recognized_dropped (parse : String → Except String SimpleHead)
    (apis : List String) (p d : String) (acc : ResultAcc) (entry : SimpleHead)
    (hookTypes : String)
    (hparse : parse d = .ok entry)
    (hver : entry.version = "" ∨ apis.contains entry.version = true)
    (hanno : hasAnyAnno entry = true)
    (hhook : annoLookup entry hookAnno = some hookTypes)
    (hnone : recognizedEvents hookTypes = []) :
    docStep parse apis p d acc = (acc, none) := by
  rcases hver with hv | hv
  · simp [docStep, hparse, hv, hanno, hhook, hnone]
  · have hvm : entry.version ∈ apis := by simpa using hv
    simp [docStep, hparse, hvm, hanno, hhook, hnone]

/-- C2 witness: a concrete document annotated only with the unrecognized
event "bogus-event" is dropped without error. -/
theorem c2_witness :
    docStep
      (fun _ => .ok
        { kind := "Pod", version := "",
          metadata := some
            { name := "p", annotations := some [(hookAnno, "bogus-event")] } })
      ["v1"] "templates/a.yaml" "k: v" ⟨[], []⟩ = (⟨[], []⟩, none) :=
  c2_zero_recognized_dropped _ _ _ _ _ _ "bogus-event" rfl (Or.inl rfl) rfl rfl rfl

/-- C3 counterexample: a rendered file set with one non-skipped file holding
one document whose hook annotation names only the unrecognized event
"bogus-event".  The claim says classification yields a GenericManifest for
it; the code drops it, and the whole classification returns empty hooks,
empty generic manifests and no error. -/
theorem c3_counterexample :
    sortManifests oneDocSplit c3parse ["v1"] c3files
        = ({ hooks := [], generic := [] }, none)
      ∧ c3parse "k: v" = .ok c3head
      ∧ annoLookup c3head hookAnno = some "bogus-event"
      ∧ recognizedEvents "bogus-event" = [] :=
  ⟨rfl, rfl, rfl, rfl⟩

/-- C3 (amended): a document whose parsed header carries no hook annotation
key at all (no annotations, or an annotation map without the hook key) and
whose apiVersion passes the capability gate is classified as a
GenericManifest whose content is the document's raw text verbatim and whose
name is the owning file's path; a document whose hook annotation names only
unrecognized events is dropped instead (see the C2 theorem). -/
theorem c3_no_hook_anno_generic (parse : String → Except String SimpleHead)
    (apis : List String) (p d : String) (acc : ResultAcc) (entry : SimpleHead)
    (hparse : parse d = .ok entry)
    (hver : entry.version = "" ∨ apis.contains entry.version = true)
    (hno : annoLookup entry hookAnno = none) :
    docStep parse apis p d acc
      = ({ acc with generic := acc.generic ++ [⟨p, d, entry⟩] }, none) := by
  rcases hver with hv | hv
  · cases hA : hasAnyAnno entry <;> simp [docStep, hparse, hv, hA, hno]
  · have hvm : entry.version ∈ apis := by simpa using hv
    cases hA : hasAnyAnno entry <;> simp [docStep, hparse, hvm, hA, hno]

/-- C3 witness: a concrete annotation-free document becomes a generic
manifest with its content and path preserved verbatim. -/
theorem c3_witness :
    docStep (fun _ => .ok { kind := "Service", version := "v1", metadata := none })
      ["v1"] "templates/svc.yaml" "kind: Service" ⟨[], []⟩
      = ({ hooks := [],
           generic := [⟨"templates/svc.yaml", "kind: Service",
             { kind := "Service", version := "v1", metadata := none }⟩] }, none) :=
  c3_no_hook_anno_generic _ _ _ _ _ _ rfl (Or.inr rfl) rfl

/-- C4: behaviour of the auto-generation path of uniqName at concrete inputs.
First conjunct (the code bug): when a generated name is actually taken, the
history lookup succeeds with a nil error, and the code evaluates
strings.Contains(err.Error(), "not found") on that nil error — a nil-pointer
dereference, modelled as GoResult.panicked — instead of logging and retrying
as the claim (and the code's own log lines) describe.  Second conjunct: only
when every lookup returns an error without "not found" does the loop run its
five attempts and return the fatal "no available release name found" error.
Third conjunct: a lookup error containing "not found" grants the generated
name. -/
theorem c4_generated_name_lookup :
    uniqName (.ok []) (fun _ => none) (fun _ => "happy-panda") "" false = .panicked
  ∧ uniqName (.ok []) (fun _ => some "storage offline") (fun _ => "happy-panda") "" false
      = .err "no available release name found"
  ∧ uniqName (.ok []) (fun _ => some "release: \"happy-panda\" not found")
      (fun _ => "happy-panda") "" false = .ok "happy-panda" :=
  ⟨rfl, rfl, rfl⟩

/-- C5: the explicit-name path of uniqName.  A name longer than 53 characters
is rejected; a name with no history is granted; with history, reuse set and a
latest revision whose status is DELETED or FAILED the name is granted; with
reuse set and any other latest status the "still in use" error is returned;
with reuse unset and non-empty history the conflict error is returned
regardless of status. -/
theorem c5_explicit_name (history : Except String (List ReleaseRec))
    (get : String → Option String) (gen : Nat → String) (start : String) (reuse : Bool)
    (hne : start ≠ "") :
    (start.length > 53 → uniqName history get gen start reuse = .err (lenErrMsg start))
  ∧ (start.length ≤ 53 → history = .ok [] →
      uniqName history get gen start reuse = .ok start)
  ∧ (start.length ≤ 53 → ∀ h rel, history = .ok h → latestRevision h = some rel →
      ((reuse = true → (rel.status = .deleted ∨ rel.status = .failed) →
          uniqName history get gen start reuse = .ok start)
       ∧ (reuse = true → rel.status ≠ .deleted → rel.status ≠ .failed →
          uniqName history get gen start reuse
            = .err "cannot re-use a name that is still in use")
       ∧ (reuse = false →
          uniqName history get gen start reuse = .err (conflictMsg start)))) := by
  refine ⟨?_, ?_, ?_⟩
  · intro hlen
    have hgt : start.length > releaseNameMaxLen := by
      simpa [releaseNameMaxLen] using hlen
    simp [uniqName, hne, hgt]
  · intro hlen hh
    have hgt : ¬ start.length > releaseNameMaxLen := by
      simp [releaseNameMaxLen]; omega
    subst hh
    simp [uniqName, hne, hgt]
  · intro hlen h rel hh hrel
    have hgt : ¬ start.length > releaseNameMaxLen := by
      simp [releaseNameMaxLen]; omega
    subst hh
    cases h with
    | nil => simp [latestRevision] at hrel
    | cons a as =>
      refine ⟨?_, ?_, ?_⟩
      · intro hr hst
        subst hr
        rcases hst with h1 | h1 <;> simp [uniqName, hne, hgt, hrel, h1]
      · intro hr h1 h2
        subst hr
        have hb : (rel.status == Status.deleted || rel.status == Status.failed) = false := by
          cases hs : rel.status <;> simp_all
        simp [uniqName, hne, hgt, hrel, hb]
      · intro hr
        subst hr
        simp [uniqName, hne, hgt, hrel]

/-- C5 witness: the three grant/deny outcomes at concrete inputs — no
history grants the name, a DEPLOYED latest revision without reuse yields the
conflict error, and a DELETED latest revision with reuse grants the name. -/
theorem c5_witness :
    uniqName (.ok []) (fun _ => none) (fun _ => "g") "web" false = .ok "web"
  ∧ uniqName (.ok [⟨1, .deployed⟩]) (fun _ => none) (fun _ => "g") "web" false
      = .err (conflictMsg "web")
  ∧ uniqName (.ok [⟨1, .deleted⟩]) (fun _ => none) (fun _ => "g") "web" true
      = .ok "web" := by
  refine ⟨?_, ?_, ?_⟩
  · exact (c5_explicit_name (.ok []) (fun _ => none) (fun _ => "g") "web" false
      (by decide)).2.1 (by decide) rfl
  · exact ((c5_explicit_name (.ok [⟨1, .deployed⟩]) (fun _ => none) (fun _ => "g") "web"
      false (by decide)).2.2 (by decide) [⟨1, .deployed⟩] ⟨1, .deployed⟩ rfl rfl).2.2 rfl
  · exact ((c5_explicit_name (.ok [⟨1, .deleted⟩]) (fun _ => none) (fun _ => "g") "web"
      true (by decide)).2.2 (by decide) [⟨1, .deleted⟩] ⟨1, .deleted⟩ rfl rfl).1 rfl
      (Or.inl rfl)

/-- Stopping fold over an appended list: if the first part finishes without
error the fold continues on the second part from the reached accumulator,
otherwise the first error wins. -/
theorem stopFold_append {β α : Type} (step : β → α → α × Option String)
    (xs ys : List β) (acc : α) :
    stopFold step (xs ++ ys) acc
      = match stopFold step xs acc with
        | (a, none) => stopFold step ys a
        | (a, some e) => (a, some e) := by
  induction xs generalizing acc with
  | nil => simp [stopFold]
  | cons b bs ih =>
    simp only [List.cons_append, stopFold]
    rcases hstep : step b acc with ⟨a1, _ | e⟩ <;> simp [hstep, ih]

/-- C6: if the rendered file set decomposes as clean files, then a
non-skipped file whose document list decomposes as clean documents followed
by an offending document d, classification of the whole file set stops at d:
when d's header fails to parse the result is the accumulator built before d
together with the "YAML parse error" message naming the offending file, and
when d's header declares a non-empty apiVersion outside the capability set
the result is that accumulator together with the "apiVersion ... is not
available" message naming the unsupported version and the file.  In both
cases the offending document is classified as neither hook nor generic
manifest (the returned accumulator is exactly the one reached before d). -/
theorem c6_offending_doc (split : String → List String)
    (parse : String → Except String SimpleHead) (apis : List String)
    (fpre : List (String × String)) (p c : String) (fpost : List (String × String))
    (pre post : List String) (d : String) (accPre accMid : ResultAcc)
    (hskip : skipFile p c = false)
    (hsplit : split c = pre ++ d :: post)
    (hfiles : stopFold (fileStep split parse apis) fpre ⟨[], []⟩ = (accPre, none))
    (hdocs : stopFold (docStep parse apis p) pre accPre = (accMid, none)) :
    (∀ m, parse d = .error m →
        sortManifests split parse apis (fpre ++ (p, c) :: fpost)
          = (accMid, some (yamlParseErrMsg p m)))
  ∧ (∀ h, parse d = .ok h → h.version ≠ "" → apis.contains h.version = false →
        sortManifests split parse apis (fpre ++ (p, c) :: fpost)
          = (accMid, some (apiVersionErrMsg h.version p))) := by
  have key : ∀ msg, docStep parse apis p d accMid = (accMid, some msg) →
      sortManifests split parse apis (fpre ++ (p, c) :: fpost) = (accMid, some msg) := by
    intro msg hd
    have hdoclist : stopFold (docStep parse apis p) (split c) accPre = (accMid, some msg) := by
      rw [hsplit, stopFold_append, hdocs]
      simp [stopFold, hd]
    have hfile : fileStep split parse apis (p, c) accPre = (accMid, some msg) := by
      simp [fileStep, hskip, hdoclist]
    have hall : stopFold (fileStep split parse apis) (fpre ++ (p, c) :: fpost) ⟨[], []⟩
        = (accMid, some msg) := by
      rw [stopFold_append, hfiles]
      simp [stopFold, hfile]
    simp [sortManifests, hall]
  constructor
  · intro m hm
    exact key _ (by simp [docStep, hm])
  · intro h hok hv hc
    have hb : (h.version != "") = true := by simp [hv]
    have hcm : h.version ∉ apis := by simpa using hc
    exact key _ (by simp [docStep, hok, hb, hcm])

/-- C6 witness: a one-file set whose single document fails to parse yields
the parse error naming the file, and empty hook/generic output. -/
theorem c6_witness :
    sortManifests (fun s => [s]) (fun _ => .error "boom") ["v1"]
      [("templates/a.yaml", "k: v")]
      = (⟨[], []⟩, some (yamlParseErrMsg "templates/a.yaml" "boom")) :=
  (c6_offending_doc (fun s => [s]) (fun _ => .error "boom") ["v1"] [] "templates/a.yaml"
      "k: v" [] [] [] "k: v" ⟨[], []⟩ ⟨[], []⟩ (by decide) rfl rfl rfl).1 "boom" rfl

/-- C9: executing hooks for an event name that is not one of the ten
recognized lifecycle event names fails immediately with the "unknown hook"
error, with no manifest submitted for creation and no hook's last-run
timestamp stamped (both effect traces are empty). -/
theorem c9_unknown_hook (create watchReady : String → Option String) (hs : List Hook)
    (name ns hook : String) (timeout : Int)
    (hunk : ∀ q ∈ eventsList, q.1 ≠ hook) :
    execHook create watchReady hs name ns hook timeout
      = ([], [], some ("unknown hook " ++ hook)) := by
  have hfind : eventsList.find? (fun q => q.1 == hook) = none :=
    List.find?_eq_none.mpr (fun q hq => by simpa using hunk q hq)
  simp [execHook, events, hfind]

/-- C9 witness: the unknown event name "bogus" is rejected with no effects. -/
theorem c9_witness :
    execHook (fun _ => none) (fun _ => none) [] "r" "default" "bogus" 300
      = ([], [], some ("unknown hook " ++ "bogus")) :=
  c9_unknown_hook _ _ _ _ _ _ _ (by decide)

/-- Folding RepoFile.add over legacy pairs appends one migrated entry per
pair, in order. -/
theorem repoFoldAdd (m : List (String × String)) (acc : RepoFile) :
    m.foldl (fun acc kv => acc.add (legacyEntry kv)) acc
      = { acc with repositories := acc.repositories ++ m.map legacyEntry } := by
  induction m generalizing acc with
  | nil => simp
  | cons kv m ih =>
    simp only [List.foldl_cons]
    rw [ih]
    simp [RepoFile.add, List.append_assoc]

/-- C8: loading a repositories file whose content parses but carries an empty
API version returns the distinguished out-of-date outcome holding the
migrated file: a fresh v1 file with exactly one entry per legacy name/URL
pair (cache set to name-index.yaml); when the parsed API version is non-empty
the parsed file is returned with no error. -/
theorem c8_load_out_of_date (parseRepo : String → Except String RepoFile)
    (parseMap : String → Except String (List (String × String)))
    (now : Nat) (b : String) (r : RepoFile)
    (hparse : parseRepo b = .ok r) :
    (r.apiVersion = "" → ∀ m, parseMap b = .ok m →
        loadRepositoriesFile parseRepo parseMap now (.ok b)
          = .outOfDate { apiVersion := APIVersionV1, generated := now,
                         repositories := m.map legacyEntry })
  ∧ (r.apiVersion ≠ "" →
        loadRepositoriesFile parseRepo parseMap now (.ok b) = .ok r) := by
  constructor
  · intro hv m hm
    simp [loadRepositoriesFile, hparse, hv, hm, repoFoldAdd, newRepoFile]
  · intro hv
    simp [loadRepositoriesFile, hparse, hv]

/-- C8 witness: a concrete legacy file with one name/URL pair migrates to a
v1 file with the one corresponding entry, under the out-of-date outcome. -/
theorem c8_witness :
    loadRepositoriesFile
      (fun _ => .ok { apiVersion := "", generated := 0, repositories := [] })
      (fun _ => .ok [("stable", "https://example.com/charts")]) 7 (.ok "legacy")
      = .outOfDate { apiVersion := APIVersionV1, generated := 7,
                     repositories := [legacyEntry ("stable", "https://example.com/charts")] } :=
  (c8_load_out_of_date _ _ 7 "legacy" _ rfl).1 rfl
    [("stable", "https://example.com/charts")] rfl

/-- Replacing the first name match: with a name-free prefix and a matching
entry, updateEntry substitutes the target in place. -/
theorem updateEntry_found (t : RepoEntry) :
    ∀ pre r post, (∀ x ∈ pre, x.name ≠ t.name) → r.name = t.name →
      updateEntry (pre ++ r :: post) t = pre ++ t :: post := by
  intro pre
  induction pre with
  | nil =>
    intro r post _ hr
    simp [updateEntry, hr]
  | cons a as ih =>
    intro r post hpre hr
    have ha : a.name ≠ t.name := hpre a (by simp)
    have hrec := ih r post (fun x hx => hpre x (by simp [hx])) hr
    simp only [List.cons_append, updateEntry, if_neg ha, List.append_eq]
    rw [hrec]

/-- With no name match anywhere, updateEntry appends the target. -/
theorem updateEntry_notfound (t : RepoEntry) :
    ∀ l, (∀ x ∈ l, x.name ≠ t.name) → updateEntry l t = l ++ [t] := by
  intro l
  induction l with
  | nil => intro; simp [updateEntry]
  | cons a as ih =>
    intro hall
    have ha : a.name ≠ t.name := hall a (by simp)
    have hrec := ih (fun x hx => hall x (by simp [hx]))
    simp only [updateEntry, if_neg ha, List.cons_append, List.append_eq]
    rw [hrec]

/-- After updateEntry the target's name is present. -/
theorem updateEntry_has (t : RepoEntry) (l : List RepoEntry) :
    (updateEntry l t).any (fun x => x.name == t.name) = true := by
  induction l with
  | nil => simp [updateEntry]
  | cons a as ih =>
    by_cases h : a.name = t.name <;> simp [updateEntry, h, ih]

/-- updateEntry leaves every entry of a different name unchanged and in its
original relative order. -/
theorem updateEntry_filter (t : RepoEntry) (l : List RepoEntry) :
    (updateEntry l t).filter (fun x => !(x.name == t.name))
      = l.filter (fun x => !(x.name == t.name)) := by
  induction l with
  | nil => simp [updateEntry]
  | cons a as ih =>
    by_cases h : a.name = t.name <;> simp [updateEntry, h, ih]

/-- C10: Update(e) on a repositories file replaces the first entry whose name
equals e's name (entries before it being name-distinct), or appends e when no
entry has that name; afterwards Has(e.name) is true, and the sublist of
entries whose name differs from e's is unchanged, preserving relative
order. -/
theorem c10_update (rf : RepoFile) (e : RepoEntry) :
    (∀ pre r post, rf.repositories = pre ++ r :: post →
        (∀ x ∈ pre, x.name ≠ e.name) → r.name = e.name →
        (rf.update e).repositories = pre ++ e :: post)
  ∧ ((∀ x ∈ rf.repositories, x.name ≠ e.name) →
        (rf.update e).repositories = rf.repositories ++ [e])
  ∧ (rf.update e).has e.name = true
  ∧ (rf.update e).repositories.filter (fun x => !(x.name == e.name))
      = rf.repositories.filter (fun x => !(x.name == e.name)) := by
  refine ⟨?_, ?_, ?_, ?_⟩
  · intro pre r post hsplit hpre hr
    simp [RepoFile.update, hsplit, updateEntry_found e pre r post hpre hr]
  · intro hall
    simp [RepoFile.update, updateEntry_notfound e _ hall]
  · simp [RepoFile.update, RepoFile.has, updateEntry_has]
  · simp [RepoFile.update, updateEntry_filter]

/-- C10 witness: updating a two-entry file at the name of its second entry
replaces that entry in place. -/
theorem c10_witness :
    (RepoFile.update
        { apiVersion := "v1", generated := 0,
          repositories := [⟨"a", "", "ua", "", "", ""⟩, ⟨"b", "", "ub", "", "", ""⟩] }
        ⟨"b", "", "ub2", "", "", ""⟩).repositories
      = [⟨"a", "", "ua", "", "", ""⟩, ⟨"b", "", "ub2", "", "", ""⟩] :=
  (c10_update _ _).1 [⟨"a", "", "ua", "", "", ""⟩] ⟨"b", "", "ub", "", "", ""⟩ [] rfl
    (by decide) rfl

end HelmSpec
